import Mathlib

/-!
Shallow embedding of the temporal-alias engine in `alias/models.py`.

The Django model `Alias` is embedded as the structure `AliasRec`; the
database table is a `List AliasRec` (with the implicit Django primary key
kept as the `id` field).  `datetime` instants are embedded as `Int`
(they are only ever compared).  Raised `ValueError` / `TypeError` /
Django lookup exceptions become `Except` errors.
-/

namespace AliasModel

/-- One row of the `Alias` table: fields `alias`, `target`, `start`, `end`
(the Django `end` column is nullable, hence `Option Int`; `id` is the
implicit Django primary key). -/
structure AliasRec where
  id : Nat
  alias_ : String
  target : String
  start : Int
  end_ : Option Int
deriving DecidableEq, Repr

/-- The `alias=self.alias_, target=self.target` part common to every filter
in `Alias.save`. -/
def sameKey (r c : AliasRec) : Bool :=
  r.alias_ == c.alias_ && r.target == c.target

/-- The filter on line 16 of `models.py`:
`Alias.objects.filter(alias=self.alias_, target=self.target, start=self.start)`
is non-empty. -/
def keyStartMatch (db : List AliasRec) (c : AliasRec) : Bool :=
  db.any fun r => sameKey r c && r.start == c.start

/-- `aliases_overlapping_start` for a bounded candidate: rows with
`start__gte=self.start, start__lt=self.end`. -/
def overlapAtStartCount (db : List AliasRec) (c : AliasRec) (e : Int) : Nat :=
  (db.filter fun r => sameKey r c && decide (c.start ≤ r.start) && decide (r.start < e)).length

/-- `aliases_overlapping_end` for a bounded candidate: rows with
`end__gte=self.start, end__lt=self.end`; a SQL `NULL` end never matches a
`__gte` lookup, hence `none ↦ false`. -/
def overlapAtEndCount (db : List AliasRec) (c : AliasRec) (e : Int) : Nat :=
  (db.filter fun r => sameKey r c &&
    (match r.end_ with
     | some re => decide (c.start ≤ re) && decide (re < e)
     | none => false)).length

/-- `aliases_overlapping_start` for an open-ended candidate: rows with
`start__gte=self.start`. -/
def openOverlapCount (db : List AliasRec) (c : AliasRec) : Nat :=
  (db.filter fun r => sameKey r c && decide (c.start ≤ r.start)).length

/-- The admission decision of `Alias.save`: `true` when `super().save()`
is reached, `false` when `ValueError("Your new Alias may cause overlap.")`
is raised. -/
def savePasses (db : List AliasRec) (c : AliasRec) : Bool :=
  if keyStartMatch db c then true
  else
    match c.end_ with
    | some e => !(decide (0 < overlapAtStartCount db c e) || decide (0 < overlapAtEndCount db c e))
    | none => !(decide (0 < openOverlapCount db c))

/-- `Alias.objects.create(...)`: a fresh row object runs `save` and, when
admitted, is inserted at the end of the table. -/
def aliasCreate (db : List AliasRec) (c : AliasRec) : Except Unit (List AliasRec) :=
  if savePasses db c then .ok (db ++ [c]) else .error ()

/-- `obj.save(update_fields=[...])` on an object that already has a primary
key: when admitted, the row with the object's `id` is overwritten. -/
def saveUpdate (db : List AliasRec) (c : AliasRec) : Except Unit (List AliasRec) :=
  if savePasses db c then .ok (db.map fun r => if r.id == c.id then c else r) else .error ()

/-- A primary key not yet used by any row (Django auto-increment). -/
def freshId (db : List AliasRec) : Nat :=
  db.foldr (fun r m => max (r.id + 1) m) 0

/-- Outcomes of `Alias.objects.get(alias=...)`. -/
inductive LookupErr where
  | doesNotExist
  | multipleObjectsReturned
deriving DecidableEq, Repr

/-- `Alias.objects.get(alias=a)`: exactly one row must match the filter,
which looks at the `alias` column only. -/
def getByAlias (db : List AliasRec) (a : String) : Except LookupErr AliasRec :=
  match db.filter fun r => r.alias_ == a with
  | [] => .error .doesNotExist
  | [r] => .ok r
  | _ => .error .multipleObjectsReturned

/-- Exceptions escaping `alias_replace`. -/
inductive ReplaceErr where
  | overlapOnClose
  | overlapOnCreate
  | lookup (e : LookupErr)
deriving DecidableEq, Repr

/-- `alias_replace(existing_alias, replace_at, new_alias_value)`,
lines 113-126 of `models.py`.  The returned list is the table as committed
when the function returns or the exception escapes: Django runs each
`save`/`create` in autocommit, so a failure in a later step keeps the
writes of the earlier steps. -/
def alias_replace (db : List AliasRec) (existing : AliasRec) (replaceAt : Int)
    (newAliasValue : String) : List AliasRec × Except ReplaceErr String :=
  let c1 : AliasRec := { existing with end_ := some replaceAt }
  match saveUpdate db c1 with
  | .error _ => (db, .error .overlapOnClose)
  | .ok db1 =>
    let c2 : AliasRec := ⟨freshId db1, newAliasValue, existing.target, replaceAt, none⟩
    match aliasCreate db1 c2 with
    | .error _ => (db1, .error .overlapOnCreate)
    | .ok db2 =>
      match getByAlias db2 newAliasValue with
      | .error e => (db2, .error (.lookup e))
      | .ok r => (db2, .ok r.alias_)

/-- The loop of `get_aliases` when `end is not None`:
`if alias.start >= from_ and alias.end <= to: aliases.append(alias.alias_)`.
Python's `and` evaluates `alias.start >= from_` first; only when that is
true does `alias.end <= to` run, raising `TypeError` (here `.error ()`)
when the row's `end` is `None`. -/
def getAliasesBounded (from_ to_ : Int) : List AliasRec → Except Unit (List String)
  | [] => .ok []
  | r :: rs =>
    if from_ ≤ r.start then
      match r.end_ with
      | none => .error ()
      | some e =>
        match getAliasesBounded from_ to_ rs with
        | .error u => .error u
        | .ok l => .ok (if e ≤ to_ then r.alias_ :: l else l)
    else getAliasesBounded from_ to_ rs

/-- `get_aliases(target, start, end)` after the argument coercions: scan
`Alias.objects.filter(target=target)` with either the bounded or the
open-query loop. -/
def get_aliases (db : List AliasRec) (target : String) (from_ : Int) (to_ : Option Int) :
    Except Unit (List String) :=
  let qs := db.filter fun r => r.target == target
  match to_ with
  | some t => getAliasesBounded from_ t qs
  | none => .ok ((qs.filter fun r => decide (from_ ≤ r.start)).map fun r => r.alias_)

/-- Possible results of `Alias.__str__` at ambient time `now`. -/
inductive StrOutcome where
  | active (s : String)
  | notYetActive
  | noLongerActive
  | noneReturned
  | typeErrorNone
deriving DecidableEq, Repr

/-- `Alias.__str__`, lines 50-57, with `timezone.now()` made an explicit
argument.  `noneReturned` models Python falling off the end of the
function (implicit `None`), `typeErrorNone` models `now >= None`. -/
def strRepr (r : AliasRec) (now : Int) : StrOutcome :=
  if (decide (r.start ≤ now) && (r.end_ == none)) ||
     (match r.end_ with
      | some e => decide (r.start ≤ now) && decide (now < e)
      | none => false) then
    .active r.target
  else if now < r.start then .notYetActive
  else
    match r.end_ with
    | none => .typeErrorNone
    | some e => if e ≤ now then .noLongerActive else .noneReturned

/-- Interval membership as the spec words `contains`: `start <= t < end`,
with a `None` end unbounded.  It coincides with the guard of `__str__`. -/
def containsAt (r : AliasRec) (t : Int) : Bool :=
  decide (r.start ≤ t) &&
    (match r.end_ with
     | none => true
     | some e => decide (t < e))

/-- Overlap as the spec words it: `[s1,e1)` and `[s2,e2)` overlap iff
`s1 < e2 AND s2 < e1`, a `None` end standing for `+∞`.  Stated from the
spec, to be compared with the admission decision of `Alias.save`. -/
def spec_overlaps (s1 : Int) (e1 : Option Int) (s2 : Int) (e2 : Option Int) : Bool :=
  (match e2 with
   | none => true
   | some x => decide (s1 < x)) &&
  (match e1 with
   | none => true
   | some x => decide (s2 < x))

/-- `contains_range` as the spec words it: `a >= start` and (`end` is
`None` or `b <= end`).  Stated from the spec, to be compared with the
bounded branch of `get_aliases`. -/
def spec_contains_range (r : AliasRec) (a b : Int) : Bool :=
  decide (r.start ≤ a) &&
    (match r.end_ with
     | none => true
     | some e => decide (b ≤ e))

/-- The loop condition of the bounded branch of `get_aliases` as a
predicate on one row: `alias.start >= from_ and alias.end <= to`, for a
row whose `end` is a real value. -/
def boundedHit (f t : Int) (r : AliasRec) : Bool :=
  decide (f ≤ r.start) &&
    (match r.end_ with
     | some e => decide (e ≤ t)
     | none => false)

/-- Claim C1.  The overlap gate of `Alias.save` only looks for an existing
start or an existing end inside the candidate's interval, so a candidate
nested strictly inside an existing same-key interval is admitted even
though the two intervals overlap under the spec's formula, and swapping
the insertion order of the same two intervals is rejected — the decision
depends on insertion order. -/
theorem save_misses_nested_overlap :
    savePasses [⟨0, "x", "T", 0, some 10⟩] ⟨1, "x", "T", 2, some 5⟩ = true ∧
    spec_overlaps 2 (some 5) 0 (some 10) = true ∧
    savePasses [⟨1, "x", "T", 2, some 5⟩] ⟨0, "x", "T", 0, some 10⟩ = false := by
  decide

/-- Claim C2.  A bounded candidate whose start equals an existing record's
end is rejected by `Alias.save`: the `end__gte=self.start` filter counts
the boundary-sharing record although the two intervals do not overlap
under the exclusive-end formula.  The open-ended candidate at the same
boundary is admitted. -/
theorem save_rejects_bounded_adjacency :
    savePasses [⟨0, "x", "T", 0, some 3⟩] ⟨1, "x", "T", 3, some 10⟩ = false ∧
    spec_overlaps 3 (some 10) 0 (some 3) = false ∧
    savePasses [⟨0, "x", "T", 0, some 3⟩] ⟨1, "x", "T", 3, none⟩ = true := by
  decide

/-- Claim C5 counterexample.  On a record whose interval contains the
instant, `__str__` returns the record's `target` field, not its alias
string: here the alias is `"a"` but `"T"` is returned. -/
theorem strRepr_returns_target_not_alias_cex :
    strRepr ⟨0, "a", "T", 0, none⟩ 5 = .active "T" ∧
    strRepr ⟨0, "a", "T", 0, none⟩ 5 ≠ .active "a" := by
  decide

/-- Claim C5 amended.  `__str__` is total on the three intended outcomes:
it returns the record's `target` exactly when the interval contains `now`,
raises not-yet-active exactly when `now < start`, and raises
no-longer-active otherwise; the implicit-`None` fall-through and the
`now >= None` comparison are unreachable. -/
theorem strRepr_total_three_outcomes (r : AliasRec) (now : Int) :
    strRepr r now =
      if containsAt r now then .active r.target
      else if now < r.start then .notYetActive
      else .noLongerActive := by
  rcases r with ⟨i, a, tg, s, e⟩
  cases e with
  | none =>
    by_cases h : s ≤ now
    · simp [strRepr, containsAt, h]
    · have h' : now < s := by omega
      simp [strRepr, containsAt, h, h']
  | some e' =>
    by_cases h : s ≤ now
    · by_cases h2 : now < e'
      · simp [strRepr, containsAt, h, h2]
      · have h3 : e' ≤ now := by omega
        have h4 : ¬ now < s := by omega
        simp [strRepr, containsAt, h, h2, h3, h4]
    · have h' : now < s := by omega
      simp [strRepr, containsAt, h, h']

/-- Claim C4 counterexample.  A record whose bounded interval is reversed
(`end <= start`) is not rejected at construction: `create` on an empty
table admits and commits it. -/
theorem reversed_interval_committed_cex :
    aliasCreate [] ⟨0, "a", "T", 10, some 5⟩ = .ok [⟨0, "a", "T", 10, some 5⟩] := by
  rfl

/-- The `start`-side overlap filter of `Alias.save` is vacuous for a
candidate whose bounded end does not exceed its start. -/
lemma overlapAtStartCount_eq_zero_of_rev (db : List AliasRec) (c : AliasRec) (e : Int)
    (hle : e ≤ c.start) : overlapAtStartCount db c e = 0 := by
  unfold overlapAtStartCount
  rw [List.length_eq_zero, List.filter_eq_nil_iff]
  intro r _ h
  simp only [Bool.and_eq_true, decide_eq_true_eq] at h
  omega

/-- The `end`-side overlap filter of `Alias.save` is vacuous for a
candidate whose bounded end does not exceed its start. -/
lemma overlapAtEndCount_eq_zero_of_rev (db : List AliasRec) (c : AliasRec) (e : Int)
    (hle : e ≤ c.start) : overlapAtEndCount db c e = 0 := by
  unfold overlapAtEndCount
  rw [List.length_eq_zero, List.filter_eq_nil_iff]
  intro r _ h
  simp only [Bool.and_eq_true] at h
  rcases hre : r.end_ with _ | re <;> rw [hre] at h
  · exact absurd h.2 (by simp)
  · simp only [Bool.and_eq_true, decide_eq_true_eq] at h
    omega

/-- Claim C4 amended.  `Alias.save` performs no interval validation: a
candidate with a bounded `end <= start` is admitted against every table
whatsoever, because both overlap filters are vacuously empty for such an
interval; reversed and zero-length intervals are committed without
error. -/
theorem reversed_interval_always_saved (db : List AliasRec) (c : AliasRec) (e : Int)
    (he : c.end_ = some e) (hle : e ≤ c.start) : savePasses db c = true := by
  unfold savePasses
  split
  · rfl
  · simp only [he, overlapAtStartCount_eq_zero_of_rev db c e hle,
      overlapAtEndCount_eq_zero_of_rev db c e hle]
    rfl

/-- Claim C4 amended, witness: the reversed interval `[10, 5)` is admitted
against a table holding a same-key record it would intersect. -/
theorem reversed_interval_always_saved_witness :
    savePasses [⟨1, "a", "T", 0, some 100⟩] ⟨0, "a", "T", 10, some 5⟩ = true :=
  reversed_interval_always_saved [⟨1, "a", "T", 0, some 100⟩] ⟨0, "a", "T", 10, some 5⟩ 5
    rfl (by decide)

/-- Claim C8.  When some committed record agrees with the candidate on
the three fields `alias`, `target`, `start`, the first branch of
`Alias.save` fires: the save is admitted unconditionally — the overlap
filters are never consulted — and an update through the primary key
rewrites the row, whatever the candidate's `end` is. -/
theorem key_start_match_skips_overlap_check (db : List AliasRec) (c : AliasRec)
    (h : ∃ r ∈ db, r.alias_ = c.alias_ ∧ r.target = c.target ∧ r.start = c.start) :
    savePasses db c = true ∧
    saveUpdate db c = .ok (db.map fun r => if r.id == c.id then c else r) := by
  have hk : keyStartMatch db c = true := by
    rcases h with ⟨r, hr, h1, h2, h3⟩
    unfold keyStartMatch
    rw [List.any_eq_true]
    exact ⟨r, hr, by simp [sameKey, h1, h2, h3]⟩
  refine ⟨by simp [savePasses, hk], ?_⟩
  simp [saveUpdate, savePasses, hk]

/-- Claim C8 witness: narrowing the end of the committed record
`(a, T, 0, [0,10))` to `[0,3)` and re-saving is admitted and rewrites the
row in place. -/
theorem key_start_match_skips_overlap_check_witness :
    savePasses [⟨0, "a", "T", 0, some 10⟩] ⟨0, "a", "T", 0, some 3⟩ = true ∧
    saveUpdate [⟨0, "a", "T", 0, some 10⟩] ⟨0, "a", "T", 0, some 3⟩ =
      .ok ([⟨0, "a", "T", 0, some 10⟩].map fun r =>
        if r.id == (⟨0, "a", "T", 0, some 3⟩ : AliasRec).id then ⟨0, "a", "T", 0, some 3⟩ else r) :=
  key_start_match_skips_overlap_check [⟨0, "a", "T", 0, some 10⟩] ⟨0, "a", "T", 0, some 3⟩
    ⟨⟨0, "a", "T", 0, some 10⟩, by decide, rfl, rfl, rfl⟩

/-- Unfolding the bounded scan when the head row fails the first,
short-circuited comparison `alias.start >= from_`. -/
lemma getAliasesBounded_cons_skip (f t : Int) (r : AliasRec) (rs : List AliasRec)
    (h : ¬ f ≤ r.start) :
    getAliasesBounded f t (r :: rs) = getAliasesBounded f t rs := by
  simp [getAliasesBounded, h]

/-- Unfolding the bounded scan when the head row passes the first
comparison and is open-ended: the `None <= to` comparison raises. -/
lemma getAliasesBounded_cons_none (f t : Int) (r : AliasRec) (rs : List AliasRec)
    (h : f ≤ r.start) (he : r.end_ = none) :
    getAliasesBounded f t (r :: rs) = .error () := by
  simp [getAliasesBounded, h, he]

/-- Unfolding the bounded scan when the head row passes the first
comparison and has a real end. -/
lemma getAliasesBounded_cons_some (f t : Int) (r : AliasRec) (rs : List AliasRec) (e : Int)
    (h : f ≤ r.start) (he : r.end_ = some e) :
    getAliasesBounded f t (r :: rs) =
      match getAliasesBounded f t rs with
      | .error u => .error u
      | .ok l => .ok (if e ≤ t then r.alias_ :: l else l) := by
  simp [getAliasesBounded, h, he]

/-- The bounded scan raises the `TypeError` exactly when some scanned row
is open-ended and also passes the short-circuited `start >= from_`
comparison. -/
lemma getAliasesBounded_error_iff (f t : Int) (l : List AliasRec) :
    getAliasesBounded f t l = .error () ↔ ∃ r ∈ l, r.end_ = none ∧ f ≤ r.start := by
  induction l with
  | nil => simp [getAliasesBounded]
  | cons r rs ih =>
    by_cases h1 : f ≤ r.start
    · rcases hre : r.end_ with _ | e
      · rw [getAliasesBounded_cons_none f t r rs h1 hre]
        simp only [true_iff, eq_self_iff_true]
        exact ⟨r, List.mem_cons_self r rs, hre, h1⟩
      · rw [getAliasesBounded_cons_some f t r rs e h1 hre]
        rcases hrec : getAliasesBounded f t rs with u | l'
        · cases u
          rw [hrec] at ih
          simp only [eq_self_iff_true, true_iff] at ih
          rcases ih with ⟨q, hq, hq2, hq3⟩
          simp only [true_iff, eq_self_iff_true]
          exact ⟨q, List.mem_cons_of_mem r hq, hq2, hq3⟩
        · simp only []
          constructor
          · intro hcon
            exact absurd hcon (by simp)
          · rintro ⟨q, hq, hq2, hq3⟩
            rcases List.mem_cons.mp hq with rfl | hq'
            · rw [hre] at hq2
              cases hq2
            · have : getAliasesBounded f t rs = .error () := ih.mpr ⟨q, hq', hq2, hq3⟩
              rw [hrec] at this
              cases this
    · rw [getAliasesBounded_cons_skip f t r rs h1, ih]
      constructor
      · rintro ⟨q, hq, hq2, hq3⟩
        exact ⟨q, List.mem_cons_of_mem r hq, hq2, hq3⟩
      · rintro ⟨q, hq, hq2, hq3⟩
        rcases List.mem_cons.mp hq with rfl | hq'
        · exact absurd hq3 h1
        · exact ⟨q, hq', hq2, hq3⟩

/-- When no scanned row can raise, the bounded scan returns, in scan
order, the aliases of the rows satisfying the loop condition
`start >= from_ and end <= to`. -/
lemma getAliasesBounded_ok_of_no_hit (f t : Int) (l : List AliasRec)
    (h : ∀ r ∈ l, r.end_ = none → ¬ f ≤ r.start) :
    getAliasesBounded f t l = .ok ((l.filter (boundedHit f t)).map fun r => r.alias_) := by
  induction l with
  | nil => simp [getAliasesBounded]
  | cons r rs ih =>
    have htail : ∀ q ∈ rs, q.end_ = none → ¬ f ≤ q.start :=
      fun q hq => h q (List.mem_cons_of_mem r hq)
    have ihs := ih htail
    by_cases h1 : f ≤ r.start
    · rcases hre : r.end_ with _ | e
      · exact absurd h1 (h r (List.mem_cons_self r rs) hre)
      · rw [getAliasesBounded_cons_some f t r rs e h1 hre, ihs]
        have hhit : boundedHit f t r = decide (e ≤ t) := by
          simp [boundedHit, h1, hre]
        by_cases h2 : e ≤ t
        · simp [List.filter_cons, hhit, h2]
        · simp [List.filter_cons, hhit, h2]
    · rw [getAliasesBounded_cons_skip f t r rs h1, ihs]
      have hhit : boundedHit f t r = false := by
        simp [boundedHit, h1]
      simp [List.filter_cons, hhit]

/-- Claim C9 counterexample.  The target `"T"` holds the open-ended
record `[0, ∞)`, yet the bounded range query `[5, 10)` returns a list:
the open row fails `alias.start >= from_`, Python's `and` short-circuits,
and the unguarded `None <= to` comparison is never reached.  Moving the
open row's start to `7` does reach it and raises. -/
theorem open_record_skipped_by_short_circuit_cex :
    get_aliases [⟨0, "a", "T", 0, none⟩] "T" 5 (some 10) = .ok [] ∧
    get_aliases [⟨0, "a", "T", 7, none⟩] "T" 5 (some 10) = .error () :=
  ⟨rfl, rfl⟩

/-- Claim C9 amended.  The bounded branch of `get_aliases` raises the
`TypeError` if and only if some record of the target is open-ended and
its start passes the short-circuited `start >= from_` comparison; an
open-ended record starting before `from_` is silently skipped. -/
theorem bounded_query_type_error_iff (db : List AliasRec) (target : String) (f t : Int) :
    get_aliases db target f (some t) = .error () ↔
      ∃ r ∈ db, r.target = target ∧ r.end_ = none ∧ f ≤ r.start := by
  simp only [get_aliases]
  rw [getAliasesBounded_error_iff]
  constructor
  · rintro ⟨q, hq, hq2, hq3⟩
    rw [List.mem_filter] at hq
    exact ⟨q, hq.1, by simpa using hq.2, hq2, hq3⟩
  · rintro ⟨q, hq, hq1, hq2, hq3⟩
    exact ⟨q, List.mem_filter.mpr ⟨hq, by simp [hq1]⟩, hq2, hq3⟩

/-- Claim C9 amended, witness: with the open row starting at `7 >= 5` the
query `[5, 10)` does raise. -/
theorem bounded_query_type_error_iff_witness :
    get_aliases [⟨0, "a", "T", 7, none⟩] "T" 5 (some 10) = .error () :=
  (bounded_query_type_error_iff [⟨0, "a", "T", 7, none⟩] "T" 5 10).mpr
    ⟨⟨0, "a", "T", 7, none⟩, by decide, rfl, rfl, by decide⟩

/-- Claim C3 counterexample (the spec's Scenario E against the code).
Query `[0, 10)` over the single record `[-5, 30)`: the record fully
contains the query range per the spec's `contains_range`, yet
`get_aliases` returns the empty list; over the single record `[1, 5)`,
which does not contain the query range, `get_aliases` returns the
alias. -/
theorem get_aliases_containment_cex :
    get_aliases [⟨0, "a", "T", -5, some 30⟩] "T" 0 (some 10) = .ok [] ∧
    spec_contains_range ⟨0, "a", "T", -5, some 30⟩ 0 10 = true ∧
    get_aliases [⟨0, "a", "T", 1, some 5⟩] "T" 0 (some 10) = .ok ["a"] ∧
    spec_contains_range ⟨0, "a", "T", 1, some 5⟩ 0 10 = false :=
  ⟨rfl, rfl, rfl, rfl⟩

/-- Claim C3 amended.  For a bounded query `[from, to)` that raises no
`TypeError` (no open-ended record of the target starts at or after
`from`), `get_aliases` returns, in scan order, the aliases of exactly
those records of the target that are fully contained in the query range:
`record.start >= from` and `record.end <= to` — the converse containment
of the one the claim states. -/
theorem get_aliases_bounded_returns_contained_records (db : List AliasRec) (target : String)
    (f t : Int) (h : ∀ r ∈ db, r.target = target → r.end_ = none → r.start < f) :
    get_aliases db target f (some t) =
      .ok (((db.filter fun r => r.target == target).filter (boundedHit f t)).map
        fun r => r.alias_) := by
  simp only [get_aliases]
  refine getAliasesBounded_ok_of_no_hit f t _ (fun r hr he => ?_)
  rw [List.mem_filter] at hr
  have := h r hr.1 (by simpa using hr.2) he
  omega

/-- Claim C3 amended, witness: the record `[1, 5)` is contained in the
query range `[0, 10)` and its alias is returned. -/
theorem get_aliases_bounded_returns_contained_records_witness :
    get_aliases [⟨0, "a", "T", 1, some 5⟩] "T" 0 (some 10) =
      .ok ((([⟨0, "a", "T", 1, some 5⟩].filter fun r => r.target == "T").filter
        (boundedHit 0 10)).map fun r => r.alias_) :=
  get_aliases_bounded_returns_contained_records [⟨0, "a", "T", 1, some 5⟩] "T" 0 10
    (by decide)

/-- A candidate differing from a committed row only in `end` always takes
the first branch of `Alias.save`: the `(alias, target, start)` filter
finds that row. -/
lemma keyStartMatch_update_of_mem (db : List AliasRec) (ex : AliasRec) (x : Option Int)
    (h : ex ∈ db) : keyStartMatch db { ex with end_ := x } = true := by
  unfold keyStartMatch
  rw [List.any_eq_true]
  exact ⟨ex, h, by simp [sameKey]⟩

/-- `Alias.save` therefore admits any end-only mutation of a committed
row. -/
lemma savePasses_update_of_mem (db : List AliasRec) (ex : AliasRec) (x : Option Int)
    (h : ex ∈ db) : savePasses db { ex with end_ := x } = true := by
  simp [savePasses, keyStartMatch_update_of_mem db ex x h]

/-- After the primary-key update write, looking up the updated key finds
the new row value. -/
lemma find?_map_update (db : List AliasRec) (ex c1 : AliasRec) (cid : Nat)
    (hmem : ex ∈ db) (hc1 : c1.id = ex.id) (hcid : cid = ex.id) :
    ((db.map fun r => if r.id == cid then c1 else r).find? fun r => r.id == ex.id)
      = some c1 := by
  induction db with
  | nil => cases hmem
  | cons h t ih =>
    simp only [List.map_cons]
    by_cases hid : h.id = cid
    · rw [if_pos (by simpa using hid)]
      exact List.find?_cons_of_pos _ (by simpa using hc1)
    · rw [if_neg (by simpa using hid)]
      have hb : (h.id == ex.id) = false := by
        rw [beq_eq_false_iff_ne]
        intro hcon
        exact hid (hcon.trans hcid.symm)
      rw [show ((h :: (t.map fun r => if r.id == cid then c1 else r)).find?
            fun r => r.id == ex.id)
          = ((t.map fun r => if r.id == cid then c1 else r).find? fun r => r.id == ex.id)
        from List.find?_cons_of_neg _ (by simp [hb])]
      refine ih ?_
      rcases List.mem_cons.mp hmem with rfl | hm
      · exact absurd hcid.symm hid
      · exact hm

/-- A `create` that returns committed exactly the candidate row appended
to the table. -/
lemma aliasCreate_ok_eq (db1 : List AliasRec) (c : AliasRec) (db2 : List AliasRec)
    (h : aliasCreate db1 c = .ok db2) : db2 = db1 ++ [c] := by
  unfold aliasCreate at h
  split at h
  · injection h with h'
    exact h'.symm
  · exact absurd h (by simp)

/-- A `create` that returns committed the candidate row. -/
lemma aliasCreate_ok_mem (db1 : List AliasRec) (c : AliasRec) (db2 : List AliasRec)
    (h : aliasCreate db1 c = .ok db2) : c ∈ db2 := by
  rw [aliasCreate_ok_eq db1 c db2 h]
  simp

/-- Whatever happens after the close step, `alias_replace` leaves the
closing mutation committed: in the returned table, the row carrying the
primary key of `existing` has `end = replaceAt`.  There is no rollback
path in the source. -/
lemma alias_replace_close_committed (db : List AliasRec) (existing : AliasRec)
    (rAt : Int) (na : String) (hmem : existing ∈ db) :
    ((alias_replace db existing rAt na).1.find? fun r => r.id == existing.id)
      = some { existing with end_ := some rAt } := by
  have hsp := savePasses_update_of_mem db existing (some rAt) hmem
  have hfind := find?_map_update db existing { existing with end_ := some rAt }
    existing.id hmem rfl rfl
  simp only [alias_replace, saveUpdate, hsp, if_true]
  split
  · exact hfind
  · rename_i db2 heq
    have hdb2 := aliasCreate_ok_eq _ _ _ heq
    have hfind2 : (db2.find? fun r => r.id == existing.id)
        = some { existing with end_ := some rAt } := by
      rw [hdb2, List.find?_append, hfind]
      rfl
    split
    · exact hfind2
    · exact hfind2

/-- When `alias_replace` returns normally, the successor record
`{new_alias, existing.target, replace_at, None}` is committed in the
returned table. -/
lemma alias_replace_ok_new_record (db : List AliasRec) (existing : AliasRec)
    (rAt : Int) (na : String) (hmem : existing ∈ db) :
    ∀ s, (alias_replace db existing rAt na).2 = .ok s →
      ∃ r ∈ (alias_replace db existing rAt na).1,
        r.alias_ = na ∧ r.target = existing.target ∧ r.start = rAt ∧ r.end_ = none := by
  have hsp := savePasses_update_of_mem db existing (some rAt) hmem
  simp only [alias_replace, saveUpdate, hsp, if_true]
  split
  · intro s hs
    simp at hs
  · rename_i db2 heq
    have hc2 := aliasCreate_ok_mem _ _ _ heq
    split
    · intro s hs
      simp at hs
    · intro s _
      exact ⟨_, hc2, rfl, rfl, rfl, rfl⟩

/-- Claim C6 amended.  After a successful `alias_replace`, the closed row
has `end = replace_at` and the successor record exists; but when creating
the successor fails, the close mutation is NOT rolled back: the row
carrying the primary key of `existing` still ends at `replace_at` in the
table the exception leaves behind — the pair is not all-or-nothing. -/
theorem replace_close_commits_even_if_create_fails (db : List AliasRec) (existing : AliasRec)
    (rAt : Int) (na : String) (hmem : existing ∈ db) :
    ((alias_replace db existing rAt na).1.find? fun r => r.id == existing.id)
      = some { existing with end_ := some rAt } ∧
    (∀ s, (alias_replace db existing rAt na).2 = .ok s →
      ∃ r ∈ (alias_replace db existing rAt na).1,
        r.alias_ = na ∧ r.target = existing.target ∧ r.start = rAt ∧ r.end_ = none) :=
  ⟨alias_replace_close_committed db existing rAt na hmem,
   alias_replace_ok_new_record db existing rAt na hmem⟩

/-- Claim C6 counterexample.  Table `{(a,T,[0,∞)), (b,T,[50,60))}`,
`replace` of the first row at `10` with new alias `b`: creating
`(b,T,[10,∞))` fails against `(b,T,[50,60))`, yet the returned table has
the first row closed at `10` — `existing.end` did not keep its
pre-call value `None`. -/
theorem replace_no_rollback_cex :
    alias_replace [⟨0, "a", "T", 0, none⟩, ⟨1, "b", "T", 50, some 60⟩]
        ⟨0, "a", "T", 0, none⟩ 10 "b" =
      ([⟨0, "a", "T", 0, some 10⟩, ⟨1, "b", "T", 50, some 60⟩], .error .overlapOnCreate) :=
  rfl

/-- Claim C6 amended, witness: a replace that succeeds outright — the
closed row and the successor are both found in the returned table. -/
theorem replace_close_commits_even_if_create_fails_witness :
    ((alias_replace [⟨0, "a", "T", 0, none⟩] ⟨0, "a", "T", 0, none⟩ 10 "b").1.find?
        fun r => r.id == (⟨0, "a", "T", 0, none⟩ : AliasRec).id)
      = some { (⟨0, "a", "T", 0, none⟩ : AliasRec) with end_ := some (10 : Int) } ∧
    (∀ s, (alias_replace [⟨0, "a", "T", 0, none⟩] ⟨0, "a", "T", 0, none⟩ 10 "b").2 = .ok s →
      ∃ r ∈ (alias_replace [⟨0, "a", "T", 0, none⟩] ⟨0, "a", "T", 0, none⟩ 10 "b").1,
        r.alias_ = "b" ∧ r.target = (⟨0, "a", "T", 0, none⟩ : AliasRec).target ∧
        r.start = 10 ∧ r.end_ = none) :=
  replace_close_commits_even_if_create_fails [⟨0, "a", "T", 0, none⟩]
    ⟨0, "a", "T", 0, none⟩ 10 "b" (by decide)

/-- Claim C7 amended.  `alias_replace` never checks the split point
against the start of the interval being split: even when
`replace_at <= existing.start`, the close step is admitted through the
idempotent-resave branch and the reversed (or empty) interval
`[start, replace_at)` with `replace_at <= start` is committed. -/
theorem replace_no_before_start_check (db : List AliasRec) (existing : AliasRec)
    (rAt : Int) (na : String) (hmem : existing ∈ db) (hAt : rAt ≤ existing.start) :
    savePasses db { existing with end_ := some rAt } = true ∧
    ((alias_replace db existing rAt na).1.find? fun r => r.id == existing.id)
      = some { existing with end_ := some rAt } :=
  ⟨savePasses_update_of_mem db existing (some rAt) hmem,
   alias_replace_close_committed db existing rAt na hmem⟩

/-- Claim C7 counterexample.  The sole record starts at `10`; replacing
at `5 <= 10` raises no error at all: the call returns the new alias and
the table now holds the reversed interval `[10, 5)` plus the successor
`[5, ∞)`. -/
theorem replace_before_start_succeeds_cex :
    alias_replace [⟨0, "a", "T", 10, none⟩] ⟨0, "a", "T", 10, none⟩ 5 "b" =
      ([⟨0, "a", "T", 10, some 5⟩, ⟨1, "b", "T", 5, none⟩], .ok "b") :=
  rfl

/-- Claim C7 amended, witness: the split point `5` precedes the start
`10`, and the close is nevertheless admitted and committed. -/
theorem replace_no_before_start_check_witness :
    savePasses [⟨0, "a", "T", 10, none⟩]
        { (⟨0, "a", "T", 10, none⟩ : AliasRec) with end_ := some (5 : Int) } = true ∧
    ((alias_replace [⟨0, "a", "T", 10, none⟩] ⟨0, "a", "T", 10, none⟩ 5 "b").1.find?
        fun r => r.id == (⟨0, "a", "T", 10, none⟩ : AliasRec).id)
      = some { (⟨0, "a", "T", 10, none⟩ : AliasRec) with end_ := some (5 : Int) } :=
  replace_no_before_start_check [⟨0, "a", "T", 10, none⟩] ⟨0, "a", "T", 10, none⟩ 5 "b"
    (by decide) (by decide)

/-- The end-only update of the close step introduces no row with the
successor's `(alias, target)` key when no such row existed before. -/
lemma no_samekey_after_update (db : List AliasRec) (existing : AliasRec) (rAt : Int)
    (na : String) (hmem : existing ∈ db)
    (hnokey : ∀ q ∈ db, ¬(q.alias_ = na ∧ q.target = existing.target)) :
    ∀ r ∈ (db.map fun r => if r.id == existing.id
        then { existing with end_ := some rAt } else r),
      ¬(r.alias_ = na ∧ r.target = existing.target) := by
  intro r hr
  rcases List.mem_map.mp hr with ⟨q, hq, hq2⟩
  by_cases hid : q.id = existing.id
  · rw [← hq2, if_pos (by simpa using hid)]
    intro hcon
    exact hnokey existing hmem ⟨hcon.1, rfl⟩
  · rw [← hq2, if_neg (by simpa using hid)]
    exact hnokey q hq

/-- An open-ended candidate whose `(alias, target)` key is used by no
committed row is admitted by `Alias.save`. -/
lemma savePasses_open_of_no_samekey (db1 : List AliasRec) (c : AliasRec)
    (hend : c.end_ = none)
    (h : ∀ r ∈ db1, ¬(r.alias_ = c.alias_ ∧ r.target = c.target)) :
    savePasses db1 c = true := by
  have hsk : ∀ r ∈ db1, sameKey r c = false := by
    intro r hr
    have hx := h r hr
    unfold sameKey
    by_cases h1 : r.alias_ = c.alias_
    · have h2 : r.target ≠ c.target := fun h2 => hx ⟨h1, h2⟩
      simp [h1, h2]
    · simp [h1]
  have hkm : keyStartMatch db1 c = false := by
    unfold keyStartMatch
    rw [List.any_eq_false]
    intro r hr
    simp [hsk r hr]
  have hoc : openOverlapCount db1 c = 0 := by
    unfold openOverlapCount
    rw [List.length_eq_zero, List.filter_eq_nil_iff]
    intro r hr
    simp [hsk r hr]
  simp [savePasses, hkm, hend, hoc]

/-- Two distinct committed rows carrying the looked-up alias string make
`Alias.objects.get(alias=...)` raise `MultipleObjectsReturned`. -/
lemma getByAlias_multiple (db2 : List AliasRec) (na : String) (x y : AliasRec)
    (hx : x ∈ db2) (hxa : x.alias_ = na) (hy : y ∈ db2) (hya : y.alias_ = na)
    (hxy : x ≠ y) :
    getByAlias db2 na = .error .multipleObjectsReturned := by
  have hx' : x ∈ db2.filter fun r => r.alias_ == na :=
    List.mem_filter.mpr ⟨hx, by simp [hxa]⟩
  have hy' : y ∈ db2.filter fun r => r.alias_ == na :=
    List.mem_filter.mpr ⟨hy, by simp [hya]⟩
  unfold getByAlias
  split
  · rename_i heq
    rw [heq] at hx'
    cases hx'
  · rename_i r heq
    rw [heq] at hx' hy'
    rw [List.mem_singleton] at hx' hy'
    exact absurd (hx'.trans hy'.symm) hxy
  · rfl

/-- Claim C10.  `alias_replace` fetches its return value by the new alias
string alone, ignoring the target.  Whenever the table already holds the
new alias under a different target — a sharing the data model permits —
and the successor's own `(alias, target)` key is free, the close step and
the create step both commit, and then the final `get(alias=...)` matches
two rows and raises `MultipleObjectsReturned`. -/
theorem replace_lookup_multiple_objects (db : List AliasRec) (existing other : AliasRec)
    (rAt : Int) (na : String)
    (hmem : existing ∈ db)
    (hids : (db.map fun r => r.id).Nodup)
    (hoth : other ∈ db) (halias : other.alias_ = na)
    (htarget : other.target ≠ existing.target)
    (hnokey : ∀ q ∈ db, ¬(q.alias_ = na ∧ q.target = existing.target)) :
    (alias_replace db existing rAt na).2 = .error (.lookup .multipleObjectsReturned) ∧
    ∃ r ∈ (alias_replace db existing rAt na).1,
      r.alias_ = na ∧ r.target = existing.target ∧ r.start = rAt ∧ r.end_ = none := by
  have hsp := savePasses_update_of_mem db existing (some rAt) hmem
  have hne_id : other.id ≠ existing.id := by
    intro hcon
    exact htarget (by rw [List.inj_on_of_nodup_map hids hoth hmem hcon])
  have hoth1 : other ∈ (db.map fun r => if r.id == existing.id
      then { existing with end_ := some rAt } else r) :=
    List.mem_map.mpr ⟨other, hoth, by rw [if_neg (by simpa using hne_id)]⟩
  have hnk1 := no_samekey_after_update db existing rAt na hmem hnokey
  simp only [alias_replace, saveUpdate, hsp, if_true]
  set db1 := db.map fun r => if r.id == existing.id
      then { existing with end_ := some rAt } else r with hdb1
  set c2 : AliasRec := ⟨freshId db1, na, existing.target, rAt, none⟩ with hc2
  have hpass := savePasses_open_of_no_samekey db1 c2 rfl (fun r hr => hnk1 r hr)
  have hcreate : aliasCreate db1 c2 = .ok (db1 ++ [c2]) := by
    unfold aliasCreate
    rw [if_pos hpass]
  have hget : getByAlias (db1 ++ [c2]) na = .error .multipleObjectsReturned :=
    getByAlias_multiple (db1 ++ [c2]) na other c2
      (List.mem_append_left _ hoth1) halias
      (List.mem_append_right _ (by simp)) rfl
      (fun hcon => htarget (by rw [hcon]))
  simp only [hcreate, hget]
  exact ⟨trivial, ⟨c2, by simp, rfl, rfl, rfl, rfl⟩⟩

/-- Claim C10, witness: table `{(a,T,[0,∞)), (b,U,[0,∞))}`; replacing the
first row at `10` with new alias `b` commits both steps and then raises
`MultipleObjectsReturned` on the final lookup. -/
theorem replace_lookup_multiple_objects_witness :
    (alias_replace [⟨0, "a", "T", 0, none⟩, ⟨1, "b", "U", 0, none⟩]
        ⟨0, "a", "T", 0, none⟩ 10 "b").2 = .error (.lookup .multipleObjectsReturned) ∧
    ∃ r ∈ (alias_replace [⟨0, "a", "T", 0, none⟩, ⟨1, "b", "U", 0, none⟩]
        ⟨0, "a", "T", 0, none⟩ 10 "b").1,
      r.alias_ = "b" ∧ r.target = (⟨0, "a", "T", 0, none⟩ : AliasRec).target ∧
      r.start = 10 ∧ r.end_ = none :=
  replace_lookup_multiple_objects [⟨0, "a", "T", 0, none⟩, ⟨1, "b", "U", 0, none⟩]
    ⟨0, "a", "T", 0, none⟩ ⟨1, "b", "U", 0, none⟩ 10 "b"
    (by decide) (by decide) (by decide) rfl (by decide) (by decide)

end AliasModel
